import Mathlib

set_option maxHeartbeats 1000000

/-! Verification development for the model-publication build pipeline
(build.js).  JavaScript strings are represented as lists of characters and a
multi-line source text as its list of lines; every definition below is
translated from the corresponding place in the source file, except for the
explicitly marked models of external collaborators (the node-semver library,
the JavaScript runtime's string/array primitives and the missing
concertoVersions registry module, which the spec describes as a mapping from
version identifier to toolchain binding with a designated default entry). -/

/-- JavaScript strings, modelled as their lists of characters. -/
abbrev Str := List Char

/-- Substring test: does the pattern occur contiguously in the list?  Models a
successful regex search for a literal pattern. -/
def containsSub (pat l : Str) : Bool :=
  (List.range (l.length + 1)).any (fun i => pat.isPrefixOf (l.drop i))

/-- JS String.split with a one-character separator. -/
def splitOnChar (sep : Char) : Str → List Str
  | [] => [[]]
  | c :: rest =>
    match splitOnChar sep rest with
    | [] => [[]]
    | h :: t => if c = sep then [] :: h :: t else (c :: h) :: t

/-- Last element of a list with a default; models Array.pop on a split
result, which is never empty. -/
def lastD {α : Type} (d : α) : List α → α
  | [] => d
  | [x] => x
  | _ :: x :: t => lastD d (x :: t)

/-- JS expression .replace(' ', '') with a plain-string pattern: only the
first space character is removed. -/
def removeFirstSpace : Str → Str
  | [] => []
  | c :: rest => if c = ' ' then rest else c :: removeFirstSpace rest

/-- Characters allowed in semver prerelease and build identifiers. -/
def isIdentChar (c : Char) : Bool := c.isDigit || c.isAlpha || c = '-'

/-- A parsed semantic version.  Build metadata is validated during parsing but
not kept, matching node-semver, which ignores it in comparisons. -/
structure SemVer where
  major : Nat
  minor : Nat
  patch : Nat
  pre : List Str
deriving DecidableEq

/-- Semver numeric identifier: digits only, with no leading zero. -/
def validNumeric (s : Str) : Bool :=
  !s.isEmpty && s.all Char.isDigit && (s.length == 1 || s.headD '0' != '0')

/-- Numeric value of a digit string. -/
def natOfDigits (s : Str) : Nat := s.foldl (fun n c => 10 * n + (c.toNat - 48)) 0

/-- Semver prerelease identifier: nonempty, alphanumeric or hyphen; purely
numeric identifiers must not have leading zeros. -/
def validPreId (s : Str) : Bool :=
  !s.isEmpty && s.all isIdentChar && (!s.all Char.isDigit || validNumeric s)

/-- Semver build identifier: nonempty, alphanumeric or hyphen. -/
def validBuildId (s : Str) : Bool := !s.isEmpty && s.all isIdentChar

/-- Model of node-semver's strict version grammar (the SemVer constructor):
trim surrounding whitespace, accept an optional leading v, then
major.minor.patch, an optional -prerelease and an optional +build part. -/
def parseSemver (s : Str) : Option SemVer :=
  let t := ((s.dropWhile Char.isWhitespace).reverse.dropWhile Char.isWhitespace).reverse
  let t := match t with
    | 'v' :: r => r
    | r => r
  let core := t.takeWhile (fun c => c != '+')
  let buildPart := t.dropWhile (fun c => c != '+')
  let mainStr := core.takeWhile (fun c => c != '-')
  let prePart := core.dropWhile (fun c => c != '-')
  let buildOk := match buildPart with
    | [] => true
    | _ :: b => (splitOnChar '.' b).all validBuildId
  let preIds : Option (List Str) := match prePart with
    | [] => some []
    | _ :: p =>
      let ids := splitOnChar '.' p
      if ids.all validPreId then some ids else none
  match splitOnChar '.' mainStr, preIds, buildOk with
  | [a, b, c], some ids, true =>
    if validNumeric a && validNumeric b && validNumeric c then
      some ⟨natOfDigits a, natOfDigits b, natOfDigits c, ids⟩
    else none
  | _, _, _ => none

/-- Model of semver.valid as a predicate: the string parses as a version. -/
def semverValid (s : Str) : Bool := (parseSemver s).isSome

/-- Three-way comparison of naturals, JavaScript-comparator style. -/
def cmpNat (a b : Nat) : Int := if a < b then -1 else if b < a then 1 else 0

/-- Code-point lexicographic three-way comparison of character lists. -/
def lexCmp : Str → Str → Int
  | [], [] => 0
  | [], _ :: _ => -1
  | _ :: _, [] => 1
  | a :: as, b :: bs => if a < b then -1 else if b < a then 1 else lexCmp as bs

/-- Model of node-semver compareIdentifiers: numeric identifiers compare as
numbers and sort before alphanumeric ones; otherwise string order. -/
def cmpPreId (a b : Str) : Int :=
  if a.all Char.isDigit then
    if b.all Char.isDigit then cmpNat (natOfDigits a) (natOfDigits b) else -1
  else if b.all Char.isDigit then 1
  else lexCmp a b

/-- Model of node-semver prerelease comparison: an absent prerelease sorts
after any prerelease; otherwise identifiers compare pointwise and a shorter
list sorts first. -/
def cmpPre : List Str → List Str → Int
  | [], [] => 0
  | [], _ :: _ => 1
  | _ :: _, [] => -1
  | a :: as, b :: bs =>
    let c := cmpPreId a b
    if c = 0 then cmpPre as bs else c

/-- Model of node-semver compare on parsed versions. -/
def cmpSemVer (a b : SemVer) : Int :=
  let c1 := cmpNat a.major b.major
  if c1 != 0 then c1 else
  let c2 := cmpNat a.minor b.minor
  if c2 != 0 then c2 else
  let c3 := cmpNat a.patch b.patch
  if c3 != 0 then c3 else cmpPre a.pre b.pre

/-- Model of semver.lte on valid version strings (node-semver throws on an
invalid version; the pipeline applies it only to the registry's version tags,
which are valid versions). -/
def semverLte (a b : Str) : Bool :=
  match parseSemver a, parseSemver b with
  | some x, some y => decide (cmpSemVer x y ≤ 0)
  | _, _ => false

/-- Model of the fixed range test semver.satisfies(version, '0.82.x'): the
version parses, has major 0 and minor 82, and carries no prerelease tag (an
x-range never admits prerelease versions). -/
def satisfies082x (v : Str) : Bool :=
  match parseSemver v with
  | some s => s.major == 0 && s.minor == 82 && s.pre.isEmpty
  | none => false

/-- Regex model for build.js line 218, the declaration directive: a line
matching concerto version "R" captures R; the greedy group extends to the
final quote of the line. -/
def matchDeclLine (line : Str) : Option Str :=
  let pfx := "concerto version \"".data
  if pfx.isPrefixOf line ∧ pfx.length < line.length ∧ line.getLastD ' ' = '"' then
    some ((line.drop pfx.length).dropLast)
  else none

/-- Regex model for build.js line 217, the comment directive: a line of the
form //...requires:...concerto-core:R captures R, the text after the last
occurrence of concerto-core: (the two greedy dot-stars), which must be
preceded by requires: on a line that starts with the comment marker. -/
def matchCommentLine (line : Str) : Option Str :=
  let occ := (List.range (line.length + 1)).filter
    (fun i => "concerto-core:".data.isPrefixOf (line.drop i))
  match occ.getLast? with
  | none => none
  | some i =>
    if "//".data.isPrefixOf line ∧ containsSub "requires:".data (line.take i) then
      some (line.drop (i + "concerto-core:".data.length))
    else none

/-- build.js line 219: the first line matching the declaration regex, else
the first line matching the comment regex (a multiline regex match returns
the earliest matching line of the text). -/
def extractDirective (lines : List Str) : Option Str :=
  match lines.findSome? matchDeclLine with
  | some r => some r
  | none => lines.findSome? matchCommentLine

/-- build.js line 221: the range string handed to semver.satisfies, namely
the captured group with its first space removed, or null with no directive. -/
def testedRange (lines : List Str) : Option Str :=
  (extractDirective lines).map removeFirstSpace

/-- build.js findCompatibleVersion (lines 214-227), parameterized by the
semver.satisfies oracle and by the registry contents (the concertoVersions
module is not in the source tree; the spec describes it as a mapping from
version identifier to binding, scanned in insertion order, plus a designated
default entry).  The scan guard mirrors the JS truthiness test: a null or
empty versionRange short-circuits the satisfies call. -/
def findCompatibleVersion {β : Type} (satisfies : Str → Str → Bool)
    (registry : List (Str × β)) (defaultBinding : β) (lines : List Str) : β :=
  let versionRange := testedRange lines
  let found := registry.find? (fun e =>
    match versionRange with
    | none => false
    | some r => !r.isEmpty && satisfies e.1 r)
  match found with
  | some e => e.2
  | none => defaultBinding

/-- Wording of claim C2, for comparison with the source function: the first
registry entry whose version identifier satisfies the extracted range, else
the default binding. -/
def resolveSpecC2 {β : Type} (satisfies : Str → Str → Bool)
    (registry : List (Str × β)) (defaultBinding : β) (range : Str) : β :=
  match registry.find? (fun e => satisfies e.1 range) with
  | some e => e.2
  | none => defaultBinding

/-- Wording of claim C9, for comparison with the source function: the
extracted range with every embedded space removed. -/
def rangeAllSpacesRemoved (lines : List Str) : Option Str :=
  (extractDirective lines).map (List.filter (fun c => c != ' '))

/-- One generator run inside a binding: the output units the visitor
successfully closes through the file writer, in order, and whether the
traversal then throws (for instance while producing a later unit). -/
structure GenImpl where
  units : List (Str × Str)
  fails : Bool
deriving DecidableEq

/-- A toolchain binding: its version tag and its CodeGen table of visitor
constructors; an absent entry models a visitor this toolchain line lacks. -/
structure Binding where
  concertoVersion : Str
  codeGen : Str → Option GenImpl

/-- A model container: its strict flag and its registered model files as
(name, content) pairs in registration order. -/
structure ModelManager where
  strict : Bool
  files : List (Str × Str)

/-- build.js lines 255-263: construct a container; under an 0.82.x binding
pre-register the system model as base.cto; then, whenever the binding's
version is at most 3.0.0, reassign the variable to a freshly constructed
strict container. -/
def setupManager (b : Binding) (systemModel : Str) : ModelManager :=
  let mm : ModelManager := { strict := false, files := [] }
  let mm :=
    if satisfies082x b.concertoVersion then
      { mm with files := mm.files ++ [("base.cto".data, systemModel)] }
    else mm
  if semverLte b.concertoVersion "3.0.0".data then
    { strict := true, files := [] }
  else mm

/-- Greedy consumption of up to n groups of the form .digits, for the version
path pattern. -/
def matchVerDots : Nat → Str → Str
  | 0, s => s
  | n + 1, s =>
    match s with
    | '.' :: r =>
      let ds := r.takeWhile Char.isDigit
      if ds.isEmpty then s else matchVerDots n (r.dropWhile Char.isDigit)
    | _ => s

/-- Greedy match of the pattern v digits (. digits){0,2} at the head of the
list, returning the remaining characters on success. -/
def matchVerAt : Str → Option Str
  | 'v' :: r =>
    let ds := r.takeWhile Char.isDigit
    if ds.isEmpty then none else some (matchVerDots 2 (r.dropWhile Char.isDigit))
  | _ => none

/-- Number of global regex matches of the version pattern in a string: a
left-to-right scan in which each match is consumed and a non-matching
position advances by one character.  The fuel argument is the length of the
list, an upper bound on the number of scan steps. -/
def countVerAux : Nat → Str → Nat
  | 0, _ => 0
  | fuel + 1, s =>
    match s with
    | [] => 0
    | c :: r =>
      match matchVerAt (c :: r) with
      | some rest => 1 + countVerAux fuel rest
      | none => countVerAux fuel r

/-- build.js line 288: the number of matches of the global version-pattern
regex over the destination-relative directory. -/
def countVerMatches (s : Str) : Nat := countVerAux s.length s

/-- build.js line 289: the destination uses the legacy versioning scheme when
the global regex scan yields exactly one match. -/
def isLegacyModelVersionScheme (relative : Str) : Bool :=
  countVerMatches relative == 1

/-- Wording of claim C3, first half: a whole path segment matching the
version pattern. -/
def segMatchesVersion (seg : Str) : Bool :=
  match matchVerAt seg with
  | some rest => rest.isEmpty
  | none => false

/-- Wording of claim C3, second half: legacy classification as exactly one
path segment that matches the version pattern in full. -/
def segmentSchemeLegacy (relative : Str) : Bool :=
  ((splitOnChar '/' relative).filter segMatchesVersion).length == 1

/-- build.js lines 291-293: the published version string derived from the
registered name: split at the at-sign, pop the last part, slice off its last
four characters, and keep the result when it is a valid semver, else 0.1.0. -/
def derivedVersion (name : Str) : Str :=
  let popped := lastD [] (splitOnChar '@' name)
  let semverStr := popped.take (popped.length - 4)
  if semverValid semverStr then semverStr else "0.1.0".data

/-- On-disk artifacts the pipeline writes. -/
inductive Artifact
  | copied (content : Str)
  | archive (entries : List (Str × Str))
  | puml
  | astJson
  | page
deriving DecidableEq

/-- The destination file tree: a map from path to artifact. -/
abbrev Disk : Type := Str → Option Artifact

/-- Writing one artifact to a path. -/
def diskWrite (p : Str) (a : Artifact) (d : Disk) : Disk :=
  fun q => if q = p then some a else d q

/-- build.js line 142: the path of the aggregated archive for one generator
and one source file. -/
def zipPath (destPath fileNameNoExt ext : Str) : Str :=
  destPath ++ "/".data ++ fileNameNoExt ++ ".".data ++ ext ++ ".zip".data

/-- build.js lines 134-147, the overridden closeFile of the file writer: the
closed unit's bytes are appended as a named entry to the in-memory zip, and
the zip is rewritten to its on-disk path after the insertion. -/
def closeFileStep (p : Str) (acc : List (Str × Str) × Disk) (u : Str × Str) :
    List (Str × Str) × Disk :=
  let entries := acc.1 ++ [u]
  (entries, diskWrite p (Artifact.archive entries) acc.2)

/-- build.js generate, the body of the try block (lines 125-153): look up the
visitor constructor in the binding's CodeGen table (an absent entry is the
silent branch for a visitor this Concerto version lacks); otherwise run the
traversal, folding every closed output unit through the overridden closeFile,
after which the traversal may end in a thrown error.  Returns the resulting
disk and the outcome. -/
def generateTry (codeGen : Str → Option GenImpl) (visitorName ext : Str)
    (destPath fileNameNoExt : Str) (d : Disk) : Disk × Except Str Unit :=
  match codeGen visitorName with
  | none => (d, Except.ok ())
  | some run =>
    let p := zipPath destPath fileNameNoExt ext
    let out := run.units.foldl (closeFileStep p) ([], d)
    (out.2, if run.fails then Except.error "generation error".data else Except.ok ())

/-- build.js generate (lines 123-158): the try body wrapped in the catch that
logs any thrown error and swallows it, keeping the disk as the traversal left
it. -/
def generate (codeGen : Str → Option GenImpl) (visitorName ext : Str)
    (destPath fileNameNoExt : Str) (d : Disk) : Disk :=
  match generateTry codeGen visitorName ext destPath fileNameNoExt d with
  | (d2, Except.ok _) => d2
  | (d2, Except.error _) => d2

/-- One entry of the CODE_GENERATORS table (build.js lines 50-121). -/
structure GenSpec where
  visitor : Str
  ext : Str
  name : Str
deriving DecidableEq

/-- One entry of the site index (build.js line 331). -/
structure IndexEntry where
  htmlFile : Str
  ns : Str
  modelVersion : Str
deriving DecidableEq

/-- The pipeline state threaded through file processing: the destination tree
and the accumulated index. -/
structure PipelineState where
  disk : Disk
  index : List IndexEntry

/-- Diagram artifact path (build.js line 163). -/
def pumlPath (destPath fileNameNoExt : Str) : Str :=
  destPath ++ "/".data ++ fileNameNoExt ++ ".puml".data

/-- AST dump artifact path (build.js line 185). -/
def astPath (destPath fileNameNoExt : Str) : Str :=
  destPath ++ "/".data ++ fileNameNoExt ++ ".ast.json".data

/-- build.js lines 311-314: run every registered code generator for the file,
in table order, threading the destination tree through each invocation. -/
def runGenerators (codeGen : Str → Option GenImpl) (gens : List GenSpec)
    (destPath fileNameNoExt : Str) (d : Disk) : Disk :=
  gens.foldl (fun d g => generate codeGen g.visitor g.ext destPath fileNameNoExt d) d

/-- build.js lines 287-342, the per-file tail once the model has compiled:
classify the destination scheme; on the current scheme derive the version,
register the model into the container (no disk effect), emit the diagram and
the AST dump, run every code generator, copy the source file, write the
rendered page and append the index entry; on the legacy scheme only copy the
source file. -/
def processFileTail (codeGen : Str → Option GenImpl) (gens : List GenSpec)
    (relative destPath fileNameNoExt dest modelText name ns : Str)
    (st : PipelineState) : PipelineState :=
  if !isLegacyModelVersionScheme relative then
    let modelVersion := derivedVersion name
    let d1 := diskWrite (pumlPath destPath fileNameNoExt) Artifact.puml st.disk
    let d2 := diskWrite (astPath destPath fileNameNoExt) Artifact.astJson d1
    let d3 := runGenerators codeGen gens destPath fileNameNoExt d2
    let d4 := diskWrite dest (Artifact.copied modelText) d3
    let htmlFile := relative ++ "/".data ++ fileNameNoExt ++ ".html".data
    let d5 := diskWrite ("./build".data ++ htmlFile) Artifact.page d4
    { disk := d5, index := st.index ++ [⟨htmlFile, ns, modelVersion⟩] }
  else
    { disk := diskWrite dest (Artifact.copied modelText) st.disk,
      index := st.index }

/-- Model of the locale comparison applied to namespaces (build.js line 351);
on the ASCII namespaces of this site it coincides with code-point order. -/
def localeCompare (a b : Str) : Int := lexCmp a b

/-- build.js line 351: sort the accumulated index by namespace under an
Array.sort comparator.  For a consistent comparator the observable contract
of Array.sort is a stable sorted permutation, modelled by insertion sort. -/
def sortIndex (cmp : Str → Str → Int) (l : List IndexEntry) : List IndexEntry :=
  List.insertionSort (fun a b => cmp a.ns b.ns ≤ 0) l

/-- build.js lines 246-251: the positional filter test.  When no argument is
supplied, file.match(undefined) builds the empty regular expression, which
matches every string; with an argument the path must contain the pattern
(the patterns in use are literal path fragments). -/
def matchesFilter (filter : Option Str) (file : Str) : Bool :=
  match filter with
  | none => true
  | some pat => containsSub pat file

/-- The set of files the per-file loop actually processes, in order: those
passing the filter test. -/
def selectFiles (filter : Option Str) (files : List Str) : List Str :=
  files.filter (matchesFilter filter)

/-- Fixture for the concrete witnesses: a generator run that closes one
TypeScript unit and succeeds. -/
def exImplTs : GenImpl := ⟨[("f1.ts".data, "c1".data)], false⟩

/-- Fixture: a generator run that closes no unit and throws. -/
def exImplCsFail : GenImpl := ⟨[], true⟩

/-- Fixture: a CodeGen table holding the two runs above. -/
def exCodeGen : Str → Option GenImpl := fun v =>
  if v = "TypescriptVisitor".data then some exImplTs
  else if v = "CSharpVisitor".data then some exImplCsFail
  else none

/-- Fixture: the TypeScript generator table entry. -/
def exGenTs : GenSpec := ⟨"TypescriptVisitor".data, "ts".data, "Typescript".data⟩

/-- Fixture: the C# generator table entry. -/
def exGenCs : GenSpec := ⟨"CSharpVisitor".data, "cs".data, "CSharp".data⟩

/-- Fixture: the empty pipeline state. -/
def exState : PipelineState := ⟨fun _ => none, []⟩

/-- Fixture: a generator run that closes two Go units and then throws. -/
def exImplGo : GenImpl :=
  ⟨[("a.go".data, "pkg a".data), ("b.go".data, "pkg b".data)], true⟩

/-- Fixture: a CodeGen table holding only the Go run above. -/
def exCodeGenGo : Str → Option GenImpl := fun v =>
  if v = "GoLangVisitor".data then some exImplGo else none

/-- Fixture: a toy satisfies oracle for the resolver witness, true exactly
for version 2.0.0 against range 2.x. -/
def exSat : Str → Str → Bool := fun v r =>
  v == "2.0.0".data && r == "2.x".data

/-- Fixture: a three-entry registry for the resolver witness. -/
def exRegistry : List (Str × Nat) :=
  [("1.0.0".data, 10), ("2.0.0".data, 20), ("2.5.0".data, 25)]

/-- Fixture: a source text carrying a declaration directive. -/
def exLines : List Str :=
  ["namespace org.acme".data, "concerto version \"2.x\"".data]

/-! Helper lemmas about the archive sink and the generator invoker. -/

theorem closeFile_fold_frame (p q : Str) (hq : q ≠ p) :
    ∀ (units : List (Str × Str)) (acc : List (Str × Str)) (d : Disk),
      (units.foldl (closeFileStep p) (acc, d)).2 q = d q := by
  intro units
  induction units with
  | nil => intro acc d; rfl
  | cons u us ih =>
    intro acc d
    simp only [List.foldl_cons, closeFileStep]
    rw [ih]
    simp [diskWrite, hq]

theorem closeFile_fold_zip (p : Str) :
    ∀ (units : List (Str × Str)) (acc : List (Str × Str)) (d : Disk),
      units ≠ [] →
      (units.foldl (closeFileStep p) (acc, d)).2 p
        = some (Artifact.archive (acc ++ units)) := by
  intro units
  induction units with
  | nil => intro acc d h; exact absurd rfl h
  | cons u us ih =>
    intro acc d _
    by_cases hus : us = []
    · subst hus
      simp [closeFileStep, diskWrite]
    · simp only [List.foldl_cons, closeFileStep]
      rw [ih (acc ++ [u]) _ hus]
      simp

theorem generate_eq_try_fst (codeGen : Str → Option GenImpl)
    (visitorName ext destPath fileNameNoExt : Str) (d : Disk) :
    generate codeGen visitorName ext destPath fileNameNoExt d
      = (generateTry codeGen visitorName ext destPath fileNameNoExt d).1 := by
  unfold generate
  rcases h : generateTry codeGen visitorName ext destPath fileNameNoExt d with ⟨d2, e⟩
  cases e <;> rfl

theorem generate_none (codeGen : Str → Option GenImpl)
    (visitorName ext destPath fileNameNoExt : Str) (d : Disk)
    (h : codeGen visitorName = none) :
    generate codeGen visitorName ext destPath fileNameNoExt d = d := by
  rw [generate_eq_try_fst]
  unfold generateTry
  rw [h]

theorem generate_frame (codeGen : Str → Option GenImpl)
    (visitorName ext destPath fileNameNoExt : Str) (d : Disk) (q : Str)
    (hq : q ≠ zipPath destPath fileNameNoExt ext) :
    generate codeGen visitorName ext destPath fileNameNoExt d q = d q := by
  rw [generate_eq_try_fst]
  unfold generateTry
  cases h : codeGen visitorName with
  | none => rfl
  | some run =>
    simp only []
    exact closeFile_fold_frame _ _ hq run.units [] d

theorem generate_zip (codeGen : Str → Option GenImpl)
    (visitorName ext destPath fileNameNoExt : Str) (d : Disk) (run : GenImpl)
    (h : codeGen visitorName = some run) (hne : run.units ≠ []) :
    generate codeGen visitorName ext destPath fileNameNoExt d
        (zipPath destPath fileNameNoExt ext)
      = some (Artifact.archive run.units) := by
  rw [generate_eq_try_fst]
  unfold generateTry
  rw [h]
  simp only []
  rw [closeFile_fold_zip _ run.units [] d hne]
  simp

theorem diskWrite_ne (p q : Str) (a : Artifact) (d : Disk) (hq : q ≠ p) :
    diskWrite p a d q = d q := by
  simp [diskWrite, hq]

theorem runGenerators_frame (codeGen : Str → Option GenImpl)
    (gens : List GenSpec) (destPath base : Str) (d : Disk) (q : Str)
    (hq : ∀ g ∈ gens, q ≠ zipPath destPath base g.ext) :
    runGenerators codeGen gens destPath base d q = d q := by
  induction gens generalizing d with
  | nil => rfl
  | cons x xs ih =>
    show runGenerators codeGen xs destPath base _ q = d q
    rw [ih _ (fun g hg => hq g (List.mem_cons_of_mem x hg))]
    exact generate_frame codeGen x.visitor x.ext destPath base d q
      (hq x (List.mem_cons_self x xs))

theorem runGenerators_mem (codeGen : Str → Option GenImpl)
    (gens : List GenSpec) (destPath base : Str) (d : Disk)
    (g : GenSpec) (run : GenImpl)
    (hg : g ∈ gens) (hrun : codeGen g.visitor = some run) (hne : run.units ≠ [])
    (hnodup : (gens.map (fun x => zipPath destPath base x.ext)).Nodup) :
    runGenerators codeGen gens destPath base d (zipPath destPath base g.ext)
      = some (Artifact.archive run.units) := by
  induction gens generalizing d with
  | nil => cases hg
  | cons x xs ih =>
    rw [List.map_cons, List.nodup_cons] at hnodup
    rcases List.mem_cons.mp hg with hgx | hgxs
    · subst hgx
      show runGenerators codeGen xs destPath base _ _ = _
      rw [runGenerators_frame codeGen xs destPath base _ _
        (fun y hy => by
          intro hcontra
          exact hnodup.1 (hcontra ▸ List.mem_map_of_mem (fun x => zipPath destPath base x.ext) hy))]
      exact generate_zip codeGen g.visitor g.ext destPath base d run hrun hne
    · show runGenerators codeGen xs destPath base
          (generate codeGen x.visitor x.ext destPath base d)
          (zipPath destPath base g.ext) = some (Artifact.archive run.units)
      exact ih _ hgxs hnodup.2

theorem processFileTail_current (codeGen : Str → Option GenImpl)
    (gens : List GenSpec) (relative destPath base dest modelText name ns : Str)
    (st : PipelineState) (hcur : countVerMatches relative ≠ 1) :
    processFileTail codeGen gens relative destPath base dest modelText name ns st
      = { disk :=
            diskWrite ("./build".data ++ (relative ++ "/".data ++ base ++ ".html".data))
              Artifact.page
              (diskWrite dest (Artifact.copied modelText)
                (runGenerators codeGen gens destPath base
                  (diskWrite (astPath destPath base) Artifact.astJson
                    (diskWrite (pumlPath destPath base) Artifact.puml st.disk)))),
          index := st.index
            ++ [⟨relative ++ "/".data ++ base ++ ".html".data, ns, derivedVersion name⟩] } := by
  have hleg : isLegacyModelVersionScheme relative = false := by
    simp only [isLegacyModelVersionScheme, beq_eq_false_iff_ne, ne_eq]
    exact hcur
  unfold processFileTail
  rw [hleg]
  rfl

theorem processFileTail_legacy (codeGen : Str → Option GenImpl)
    (gens : List GenSpec) (relative destPath base dest modelText name ns : Str)
    (st : PipelineState) (hleg : countVerMatches relative = 1) :
    processFileTail codeGen gens relative destPath base dest modelText name ns st
      = { disk := diskWrite dest (Artifact.copied modelText) st.disk,
          index := st.index } := by
  have h : isLegacyModelVersionScheme relative = true := by
    simp only [isLegacyModelVersionScheme, beq_iff_eq]
    exact hleg
  unfold processFileTail
  rw [h]
  rfl

/-- Claim C4: if one generator throws while processing a file whose earlier
steps succeeded, the remaining generators in the generator list are still
invoked for the file (their archives are still on the final disk) and the
file's IndexEntry is still appended: a generator failure is isolated inside
its own invocation. -/
theorem generator_failure_is_isolated (codeGen : Str → Option GenImpl)
    (gens : List GenSpec) (relative destPath base dest modelText name ns : Str)
    (st : PipelineState) (gFail g : GenSpec) (runF runG : GenImpl)
    (hcur : countVerMatches relative ≠ 1)
    (hfMem : gFail ∈ gens) (hfImpl : codeGen gFail.visitor = some runF)
    (hthrows : runF.fails = true)
    (hgMem : g ∈ gens) (hgImpl : codeGen g.visitor = some runG)
    (hgUnits : runG.units ≠ [])
    (hnodup : (gens.map (fun x => zipPath destPath base x.ext)).Nodup)
    (hdest : dest ≠ zipPath destPath base g.ext)
    (hhtml : "./build".data ++ (relative ++ "/".data ++ base ++ ".html".data)
      ≠ zipPath destPath base g.ext) :
    (processFileTail codeGen gens relative destPath base dest modelText name ns st).disk
        (zipPath destPath base g.ext) = some (Artifact.archive runG.units)
    ∧ (processFileTail codeGen gens relative destPath base dest modelText name ns st).index
        = st.index ++ [⟨relative ++ "/".data ++ base ++ ".html".data, ns,
            derivedVersion name⟩] := by
  rw [processFileTail_current codeGen gens relative destPath base dest modelText name ns
    st hcur]
  refine ⟨?_, rfl⟩
  show diskWrite _ _ _ _ = _
  rw [diskWrite_ne _ _ _ _ (Ne.symm hhtml), diskWrite_ne _ _ _ _ (Ne.symm hdest)]
  exact runGenerators_mem codeGen gens destPath base _ g runG hgMem hgImpl hgUnits hnodup

theorem generator_failure_is_isolated_witness :
    countVerMatches "/org/acme".data ≠ 1
    ∧ ((processFileTail exCodeGen [exGenTs, exGenCs] "/org/acme".data
          "/build/org/acme".data "m".data "/build/org/acme/m.cto".data
          "text".data "m@1.0.0.cto".data "org.acme".data exState).disk
          (zipPath "/build/org/acme".data "m".data exGenTs.ext)
        = some (Artifact.archive exImplTs.units)
      ∧ (processFileTail exCodeGen [exGenTs, exGenCs] "/org/acme".data
          "/build/org/acme".data "m".data "/build/org/acme/m.cto".data
          "text".data "m@1.0.0.cto".data "org.acme".data exState).index
        = exState.index ++ [⟨"/org/acme".data ++ "/".data ++ "m".data ++ ".html".data,
            "org.acme".data, derivedVersion "m@1.0.0.cto".data⟩]) :=
  ⟨by decide,
   generator_failure_is_isolated exCodeGen [exGenTs, exGenCs] "/org/acme".data
     "/build/org/acme".data "m".data "/build/org/acme/m.cto".data "text".data
     "m@1.0.0.cto".data "org.acme".data exState exGenCs exGenTs exImplCsFail exImplTs
     (by decide) (by decide) (by decide) (by decide) (by decide) (by decide)
     (by decide) (by decide) (by decide) (by decide)⟩

/-- Claim C5: the overridden closeFile persists the archive to disk after
every unit insertion, so when a generator invocation closes two output units
and the traversal then throws while producing a third, the archive on disk
holds exactly the first two units. -/
theorem partial_archive_persisted (codeGen : Str → Option GenImpl)
    (visitorName ext destPath base : Str) (d : Disk) (run : GenImpl)
    (u1 u2 : Str × Str)
    (h : codeGen visitorName = some run) (hu : run.units = [u1, u2])
    (hfails : run.fails = true) :
    generate codeGen visitorName ext destPath base d (zipPath destPath base ext)
      = some (Artifact.archive [u1, u2]) := by
  have hz := generate_zip codeGen visitorName ext destPath base d run h
    (by rw [hu]; exact List.cons_ne_nil _ _)
  rw [hu] at hz
  exact hz

theorem partial_archive_persisted_witness :
    (exCodeGenGo "GoLangVisitor".data = some exImplGo ∧ exImplGo.fails = true)
    ∧ generate exCodeGenGo "GoLangVisitor".data "go".data "/build/org".data
        "m".data (fun _ => none) (zipPath "/build/org".data "m".data "go".data)
      = some (Artifact.archive [("a.go".data, "pkg a".data), ("b.go".data, "pkg b".data)]) :=
  ⟨⟨by decide, by decide⟩,
   partial_archive_persisted exCodeGenGo "GoLangVisitor".data "go".data
     "/build/org".data "m".data (fun _ => none) exImplGo
     ("a.go".data, "pkg a".data) ("b.go".data, "pkg b".data)
     (by decide) (by decide) (by decide)⟩

/-- Claim C7: the generator invocation never raises: when the binding's
CodeGen table lacks the requested visitor it completes as a no-op leaving the
disk unchanged (no archive is produced), and in every case it returns
normally with the disk state of the try body, the traversal error being
caught and logged rather than propagated. -/
theorem generator_invocation_total (codeGen : Str → Option GenImpl)
    (visitorName ext destPath base : Str) (d : Disk) :
    (codeGen visitorName = none →
      generate codeGen visitorName ext destPath base d = d)
    ∧ generate codeGen visitorName ext destPath base d
        = (generateTry codeGen visitorName ext destPath base d).1 :=
  ⟨generate_none codeGen visitorName ext destPath base d,
   generate_eq_try_fst codeGen visitorName ext destPath base d⟩

theorem generator_invocation_total_witness :
    ((fun _ : Str => (none : Option GenImpl)) "XmlSchemaVisitor".data = none)
    ∧ generate (fun _ => none) "XmlSchemaVisitor".data "xsd".data
        "/build/org".data "m".data (fun _ => none) = (fun _ => none) :=
  ⟨rfl,
   (generator_invocation_total (fun _ => none) "XmlSchemaVisitor".data "xsd".data
     "/build/org".data "m".data (fun _ => none)).1 rfl⟩

/-! Lemmas for the container-construction bug and the version resolver. -/

theorem satisfies082x_lte_300 (v : Str) (h : satisfies082x v = true) :
    semverLte v "3.0.0".data = true := by
  unfold satisfies082x at h
  cases hp : parseSemver v with
  | none => rw [hp] at h; exact absurd h (by simp)
  | some s =>
    rw [hp] at h
    simp only [Bool.and_eq_true, beq_iff_eq] at h
    have h3 : parseSemver "3.0.0".data = some ⟨3, 0, 0, []⟩ := by decide
    unfold semverLte
    rw [hp, h3]
    simp [cmpSemVer, cmpNat, h.1.1]

/-- Claim C1 (code bug): the claim states that for a binding on the 0.82.x
legacy line the bootstrap/system schema is pre-registered and that this same
container is the one used to compile and register the model.  In the source
the bootstrap-loaded container is discarded immediately afterwards: every
0.82.x version is at most 3.0.0, so the strict-mode branch on line 261
reassigns modelManager to a freshly constructed strict container, and the
model is compiled and registered in a container holding no bootstrap schema,
contradicting the comment above the system-model load.  This theorem
evaluates the code at the failing inputs: under any 0.82.x binding the
container that reaches compilation has an empty file list and is the fresh
strict one. -/
theorem legacy_bootstrap_schema_lost (b : Binding) (systemModel : Str)
    (h : satisfies082x b.concertoVersion = true) :
    (setupManager b systemModel).files = []
    ∧ (setupManager b systemModel).strict = true := by
  unfold setupManager
  rw [h, satisfies082x_lte_300 b.concertoVersion h]
  exact ⟨rfl, rfl⟩

theorem legacy_bootstrap_schema_lost_witness :
    satisfies082x ("0.82.6".data) = true
    ∧ ((setupManager ⟨"0.82.6".data, fun _ => none⟩
          "namespace org.accordproject.base".data).files = []
      ∧ (setupManager ⟨"0.82.6".data, fun _ => none⟩
          "namespace org.accordproject.base".data).strict = true) :=
  ⟨by decide,
   legacy_bootstrap_schema_lost ⟨"0.82.6".data, fun _ => none⟩
     "namespace org.accordproject.base".data (by decide)⟩

theorem find?_const_false {β : Type} :
    ∀ l : List (Str × β), (l.find? fun _ => false) = none := by
  intro l
  induction l with
  | nil => rfl
  | cons x xs ih => simp [List.find?, ih]

/-- Claim C2 (amended): when the text carries a version directive with
extracted range r, findCompatibleVersion returns the first registry entry in
insertion order whose version identifier satisfies r after its first space is
removed, and the default binding when no entry satisfies (in particular,
without raising, when the range is invalid and so satisfies nothing); but
when the processed range is the empty string the JS truthiness guard skips
the scan and the default binding is returned even though the empty string is
a valid range that every normal version satisfies. -/
theorem find_compatible_version_spec {β : Type} (satisfies : Str → Str → Bool)
    (registry : List (Str × β)) (defaultBinding : β) (lines : List Str) (r : Str)
    (hdir : extractDirective lines = some r) :
    findCompatibleVersion satisfies registry defaultBinding lines
      = (if removeFirstSpace r = [] then defaultBinding
         else resolveSpecC2 satisfies registry defaultBinding (removeFirstSpace r)) := by
  unfold findCompatibleVersion testedRange
  rw [hdir]
  by_cases hr : removeFirstSpace r = []
  · rw [if_pos hr]
    simp only [Option.map_some', hr, List.isEmpty_nil, Bool.not_true, Bool.false_and]
    rw [find?_const_false registry]
  · rw [if_neg hr]
    have hne : (removeFirstSpace r).isEmpty = false := by
      cases h' : removeFirstSpace r with
      | nil => exact absurd h' hr
      | cons a l => rfl
    simp only [Option.map_some', hne, Bool.not_false, Bool.true_and]
    rfl

/-- Claim C2 counterexample: the directive concerto version "" matches the
directive regex and extracts the empty range, a valid semver range that
node-semver reports every normal version as satisfying (modelled by the
constant-true satisfies oracle); the claim then requires the first registry
entry, but the code returns the default binding because the empty string is
falsy and short-circuits the scan. -/
theorem find_compatible_version_empty_range_cx :
    extractDirective ["concerto version \"\"".data] = some []
    ∧ findCompatibleVersion (fun _ _ => true) [("1.0.0".data, 1)] 0
        ["concerto version \"\"".data] = 0
    ∧ resolveSpecC2 (fun _ _ => true) [("1.0.0".data, 1)] 0
        (removeFirstSpace []) = 1 := by decide

theorem find_compatible_version_spec_witness :
    extractDirective exLines = some "2.x".data
    ∧ findCompatibleVersion exSat exRegistry 99 exLines
      = (if removeFirstSpace "2.x".data = [] then 99
         else resolveSpecC2 exSat exRegistry 99 (removeFirstSpace "2.x".data)) :=
  ⟨by decide,
   find_compatible_version_spec exSat exRegistry 99 exLines "2.x".data (by decide)⟩

/-! Lemmas about the space handling of the extracted version range. -/

theorem removeFirstSpace_of_not_mem (r : Str) (h : ' ' ∉ r) :
    removeFirstSpace r = r := by
  induction r with
  | nil => rfl
  | cons c cs ih =>
    simp only [List.mem_cons, not_or] at h
    simp [removeFirstSpace, Ne.symm h.1, ih h.2]

theorem removeFirstSpace_append (a b : Str) (ha : ' ' ∉ a) :
    removeFirstSpace (a ++ ' ' :: b) = a ++ b := by
  induction a with
  | nil => simp [removeFirstSpace]
  | cons c cs ih =>
    simp only [List.mem_cons, not_or] at ha
    simp [removeFirstSpace, Ne.symm ha.1, ih ha.2]

theorem filter_of_not_mem (r : Str) (h : ' ' ∉ r) :
    r.filter (fun c => c != ' ') = r := by
  induction r with
  | nil => rfl
  | cons c cs ih =>
    simp only [List.mem_cons, not_or] at h
    simp [List.filter_cons, Ne.symm h.1, ih h.2]

theorem removeFirstSpace_eq_filter (r : Str) (h : r.count ' ' ≤ 1) :
    removeFirstSpace r = r.filter (fun c => c != ' ') := by
  induction r with
  | nil => rfl
  | cons c cs ih =>
    by_cases hc : c = ' '
    · subst hc
      have hcnt : cs.count ' ' = 0 := by
        rw [List.count_cons_self] at h
        omega
      have hnot : ' ' ∉ cs := List.count_eq_zero.mp hcnt
      simp [removeFirstSpace, List.filter_cons, filter_of_not_mem cs hnot]
    · have h' : cs.count ' ' ≤ 1 := by
        rw [List.count_cons_of_ne (Ne.symm hc)] at h
        exact h
      simp [removeFirstSpace, hc, List.filter_cons, ih h']

/-- Claim C9 (amended): only the first space of the extracted range is
removed before it is tested (String.replace with a plain-string pattern
replaces one occurrence, and only spaces, not other whitespace); a range with
at most one embedded space, such as the one-space example in the claim, is
therefore tested fully stripped of spaces, but any later spaces are kept. -/
theorem tested_range_first_space_only (lines : List Str) (a b : Str)
    (hdir : extractDirective lines = some (a ++ ' ' :: b)) (ha : ' ' ∉ a) :
    testedRange lines = some (a ++ b)
    ∧ (∀ r, extractDirective lines = some r → r.count ' ' ≤ 1 →
        testedRange lines = some (r.filter (fun c => c != ' '))) := by
  constructor
  · unfold testedRange
    rw [hdir]
    show some (removeFirstSpace (a ++ ' ' :: b)) = some (a ++ b)
    exact congrArg some (removeFirstSpace_append a b ha)
  · intro r hr hcnt
    unfold testedRange
    rw [hr]
    show some (removeFirstSpace r) = some (r.filter (fun c => c != ' '))
    exact congrArg some (removeFirstSpace_eq_filter r hcnt)

/-- Claim C9 counterexample: for a directive whose range carries two embedded
spaces, the range string the code hands to the scan keeps the second space,
so it differs from the claim's range with all whitespace removed. -/
theorem tested_range_cx :
    testedRange ["concerto version \">= 1.0.0  <2.0.0\"".data]
      ≠ rangeAllSpacesRemoved ["concerto version \">= 1.0.0  <2.0.0\"".data] := by
  decide

theorem tested_range_first_space_only_witness :
    (extractDirective ["concerto version \">= 1.0.0\"".data]
        = some (">=".data ++ ' ' :: "1.0.0".data)
      ∧ ' ' ∉ ">=".data)
    ∧ testedRange ["concerto version \">= 1.0.0\"".data]
        = some (">=".data ++ "1.0.0".data) :=
  ⟨⟨by decide, by decide⟩,
   (tested_range_first_space_only ["concerto version \">= 1.0.0\"".data]
     ">=".data "1.0.0".data (by decide) (by decide)).1⟩

/-- Claim C3 counterexample: the relative destination directory /av1 contains
no whole path segment matching the version pattern, so the claim classifies
it current-scheme; but the unanchored global regex of line 288 finds one
match, the substring v1 inside the segment av1, so the code classifies it
legacy-scheme and the file is only copied. -/
theorem legacy_scheme_cx :
    isLegacyModelVersionScheme "/av1".data = true
    ∧ segmentSchemeLegacy "/av1".data = false := by decide

/-- Claim C3 (amended): the destination is classified legacy-scheme iff the
left-to-right global regex scan over the relative destination path finds
exactly one match of the version pattern, where a match is a substring that
need not be a whole path segment; a legacy-scheme file is only copied, with
no index entry and no generated artifacts (the resulting state is exactly the
prior disk plus the copied file, with the index unchanged), and any other
match count makes the file current-scheme, whose index entry is appended. -/
theorem legacy_scheme_amended (codeGen : Str → Option GenImpl)
    (gens : List GenSpec) (relative destPath base dest modelText name ns : Str)
    (st : PipelineState) :
    (isLegacyModelVersionScheme relative = (countVerMatches relative == 1))
    ∧ (countVerMatches relative = 1 →
        processFileTail codeGen gens relative destPath base dest modelText name ns st
          = { disk := diskWrite dest (Artifact.copied modelText) st.disk,
              index := st.index })
    ∧ (countVerMatches relative ≠ 1 →
        (processFileTail codeGen gens relative destPath base dest modelText name
            ns st).index
          = st.index ++ [⟨relative ++ "/".data ++ base ++ ".html".data, ns,
              derivedVersion name⟩]) :=
  ⟨rfl,
   fun h => processFileTail_legacy codeGen gens relative destPath base dest
     modelText name ns st h,
   fun h => by
     rw [processFileTail_current codeGen gens relative destPath base dest
       modelText name ns st h]⟩

theorem legacy_scheme_amended_witness :
    countVerMatches "/org/v1".data = 1
    ∧ processFileTail exCodeGen [exGenTs, exGenCs] "/org/v1".data
        "/build/org/v1".data "m".data "/build/org/v1/m.cto".data
        "text".data "m@1.0.0.cto".data "org.v1".data exState
      = { disk := diskWrite "/build/org/v1/m.cto".data
            (Artifact.copied "text".data) exState.disk,
          index := exState.index } :=
  ⟨by decide,
   (legacy_scheme_amended exCodeGen [exGenTs, exGenCs] "/org/v1".data
     "/build/org/v1".data "m".data "/build/org/v1/m.cto".data "text".data
     "m@1.0.0.cto".data "org.v1".data exState).2.1 (by decide)⟩

/-! Lemmas about splitting the registered name at its separators. -/

theorem splitOnChar_ne_nil (sep : Char) (l : Str) : splitOnChar sep l ≠ [] := by
  cases l with
  | nil => simp [splitOnChar]
  | cons c rest =>
    simp only [splitOnChar]
    cases h : splitOnChar sep rest with
    | nil => simp
    | cons x t => by_cases hc : c = sep <;> simp [hc]

theorem splitOnChar_no_sep (sep : Char) (b : Str) (h : sep ∉ b) :
    splitOnChar sep b = [b] := by
  induction b with
  | nil => rfl
  | cons c cs ih =>
    simp only [List.mem_cons, not_or] at h
    simp only [splitOnChar, ih h.2]
    simp [Ne.symm h.1]

theorem splitOnChar_sep_len (sep : Char) (b : Str) :
    ∀ a : Str, 2 ≤ (splitOnChar sep (a ++ sep :: b)).length := by
  intro a
  induction a with
  | nil =>
    simp only [List.nil_append, splitOnChar]
    cases h : splitOnChar sep b with
    | nil => exact absurd h (splitOnChar_ne_nil sep b)
    | cons x t => simp
  | cons c a' ih =>
    simp only [List.cons_append, splitOnChar]
    cases h : splitOnChar sep (a' ++ sep :: b) with
    | nil => exact absurd h (splitOnChar_ne_nil _ _)
    | cons x t =>
      rw [h] at ih
      simp only [List.length_cons] at ih
      by_cases hc : c = sep
      · simp only [if_pos hc, List.length_cons]
        omega
      · simp only [if_neg hc, List.length_cons]
        omega

theorem lastD_cons_cons {α : Type} (d x y : α) (t : List α) :
    lastD d (x :: y :: t) = lastD d (y :: t) := rfl

theorem lastD_splitOnChar (sep : Char) (b : Str) (hb : sep ∉ b) :
    ∀ a : Str, lastD [] (splitOnChar sep (a ++ sep :: b)) = b := by
  intro a
  induction a with
  | nil =>
    simp only [List.nil_append, splitOnChar, splitOnChar_no_sep sep b hb]
    simp [lastD]
  | cons c a' ih =>
    simp only [List.cons_append, splitOnChar]
    cases h : splitOnChar sep (a' ++ sep :: b) with
    | nil => exact absurd h (splitOnChar_ne_nil _ _)
    | cons x t =>
      have hlen := splitOnChar_sep_len sep b a'
      rw [h] at ih hlen
      have ht : t ≠ [] := by
        simp only [List.length_cons] at hlen
        intro hcontra
        subst hcontra
        simp at hlen
      show lastD [] (if c = sep then [] :: x :: t else (c :: x) :: t) = b
      by_cases hc : c = sep
      · rw [if_pos hc, lastD_cons_cons]
        exact ih
      · rw [if_neg hc]
        cases t with
        | nil => exact absurd rfl ht
        | cons y t' =>
          rw [lastD_cons_cons]
          rw [lastD_cons_cons] at ih
          exact ih

/-- Claim C6: for every current-scheme file the derived published version is
the portion of the compiled model's registered name after the last at-sign,
minus its four-character trailing extension, when that portion is a valid
semantic version, and exactly 0.1.0 otherwise; in particular a registered
name ending in @1.2.3.cto yields exactly 1.2.3 and a non-semver suffix
yields 0.1.0. -/
theorem derived_version_spec (a b : Str) (hb : '@' ∉ b) :
    derivedVersion (a ++ '@' :: b)
      = (if semverValid (b.take (b.length - 4)) = true then b.take (b.length - 4)
         else "0.1.0".data)
    ∧ derivedVersion (a ++ "@1.2.3.cto".data) = "1.2.3".data
    ∧ derivedVersion (a ++ "@latest.cto".data) = "0.1.0".data := by
  have key : ∀ c : Str, '@' ∉ c →
      derivedVersion (a ++ '@' :: c)
        = (if semverValid (c.take (c.length - 4)) = true then c.take (c.length - 4)
           else "0.1.0".data) := by
    intro c hc
    unfold derivedVersion
    rw [lastD_splitOnChar '@' c hc a]
  refine ⟨key b hb, ?_, ?_⟩
  · have h1 := key "1.2.3.cto".data (by decide)
    rw [show ("@1.2.3.cto".data : Str) = '@' :: "1.2.3.cto".data from rfl, h1]
    decide
  · have h2 := key "latest.cto".data (by decide)
    rw [show ("@latest.cto".data : Str) = '@' :: "latest.cto".data from rfl, h2]
    decide

theorem derived_version_spec_witness :
    ('@' ∉ "1.0.0.cto".data)
    ∧ derivedVersion ("org.acme.person".data ++ '@' :: "1.0.0.cto".data)
      = (if semverValid ("1.0.0.cto".data.take ("1.0.0.cto".data.length - 4)) = true
         then "1.0.0.cto".data.take ("1.0.0.cto".data.length - 4)
         else "0.1.0".data) :=
  ⟨by decide,
   (derived_version_spec "org.acme.person".data "1.0.0.cto".data (by decide)).1⟩

/-! Lemmas about the namespace comparator and the index sort. -/

theorem lexCmp_nil_le (c : Str) : lexCmp [] c ≤ 0 := by
  cases c with
  | nil => decide
  | cons x xs =>
    show (-1 : Int) ≤ 0
    decide

theorem lexCmp_cons_self (x : Char) (as bs : Str) :
    lexCmp (x :: as) (x :: bs) = lexCmp as bs := by
  show (if x < x then (-1 : Int) else if x < x then 1 else lexCmp as bs)
    = lexCmp as bs
  simp [lt_irrefl]

theorem lexCmp_cons_lt (x y : Char) (h : x < y) (as bs : Str) :
    lexCmp (x :: as) (y :: bs) = -1 := by
  show (if x < y then (-1 : Int) else if y < x then 1 else lexCmp as bs) = -1
  rw [if_pos h]

theorem lexCmp_cons_gt (x y : Char) (h : y < x) (as bs : Str) :
    lexCmp (x :: as) (y :: bs) = 1 := by
  show (if x < y then (-1 : Int) else if y < x then 1 else lexCmp as bs) = 1
  rw [if_neg (lt_asymm h), if_pos h]

theorem lexCmp_total (a : Str) : ∀ b, lexCmp a b ≤ 0 ∨ lexCmp b a ≤ 0 := by
  induction a with
  | nil => intro b; exact Or.inl (lexCmp_nil_le b)
  | cons x as ih =>
    intro b
    cases b with
    | nil => exact Or.inr (lexCmp_nil_le _)
    | cons y bs =>
      rcases lt_trichotomy x y with hxy | hxy | hxy
      · left
        rw [lexCmp_cons_lt x y hxy as bs]
        decide
      · subst hxy
        rw [lexCmp_cons_self, lexCmp_cons_self]
        exact ih bs
      · right
        rw [lexCmp_cons_lt y x hxy bs as]
        decide

theorem lexCmp_trans (a : Str) :
    ∀ b c, lexCmp a b ≤ 0 → lexCmp b c ≤ 0 → lexCmp a c ≤ 0 := by
  induction a with
  | nil => intro b c _ _; exact lexCmp_nil_le c
  | cons x as ih =>
    intro b c h1 h2
    cases b with
    | nil =>
      rw [show lexCmp (x :: as) [] = 1 from rfl] at h1
      exact absurd h1 (by decide)
    | cons y bs =>
      cases c with
      | nil =>
        rw [show lexCmp (y :: bs) [] = 1 from rfl] at h2
        exact absurd h2 (by decide)
      | cons z cs =>
        rcases lt_trichotomy x y with hxy | hxy | hxy
        · rcases lt_trichotomy y z with hyz | hyz | hyz
          · rw [lexCmp_cons_lt x z (lt_trans hxy hyz)]
            decide
          · subst hyz
            rw [lexCmp_cons_lt x y hxy]
            decide
          · rw [lexCmp_cons_gt y z hyz] at h2
            exact absurd h2 (by decide)
        · subst hxy
          rcases lt_trichotomy x z with hxz | hxz | hxz
          · rw [lexCmp_cons_lt x z hxz]
            decide
          · subst hxz
            rw [lexCmp_cons_self] at h1 h2 ⊢
            exact ih bs cs h1 h2
          · rw [lexCmp_cons_gt x z hxz] at h2
            exact absurd h2 (by decide)
        · rw [lexCmp_cons_gt x y hxy] at h1
          exact absurd h1 (by decide)

theorem localeCompare_total (a b : Str) :
    localeCompare a b ≤ 0 ∨ localeCompare b a ≤ 0 := lexCmp_total a b

theorem localeCompare_trans (a b c : Str) (h1 : localeCompare a b ≤ 0)
    (h2 : localeCompare b c ≤ 0) : localeCompare a c ≤ 0 :=
  lexCmp_trans a b c h1 h2

/-- Claim C8: after all files are processed the final index holds every
accumulated entry (the sort is a permutation of the accumulator) in
non-decreasing order of compiled-model namespace under the comparator, for
any consistent (total and transitive) comparator such as the locale
comparison; in particular two successfully processed files with namespaces
z.model and a.model end up ordered with a.model first. -/
theorem index_sorted_by_namespace (cmp : Str → Str → Int)
    (idx : List IndexEntry)
    (htot : ∀ a b, cmp a b ≤ 0 ∨ cmp b a ≤ 0)
    (htrans : ∀ a b c, cmp a b ≤ 0 → cmp b c ≤ 0 → cmp a c ≤ 0) :
    List.Sorted (fun a b : IndexEntry => cmp a.ns b.ns ≤ 0) (sortIndex cmp idx)
    ∧ (sortIndex cmp idx).Perm idx
    ∧ sortIndex localeCompare
        [⟨"z.html".data, "z.model".data, "0.1.0".data⟩,
         ⟨"a.html".data, "a.model".data, "0.1.0".data⟩]
      = [⟨"a.html".data, "a.model".data, "0.1.0".data⟩,
         ⟨"z.html".data, "z.model".data, "0.1.0".data⟩] := by
  haveI : IsTotal IndexEntry (fun a b : IndexEntry => cmp a.ns b.ns ≤ 0) :=
    ⟨fun a b => htot a.ns b.ns⟩
  haveI : IsTrans IndexEntry (fun a b : IndexEntry => cmp a.ns b.ns ≤ 0) :=
    ⟨fun a b c => htrans a.ns b.ns c.ns⟩
  unfold sortIndex
  exact ⟨List.sorted_insertionSort _ idx, List.perm_insertionSort _ idx, by decide⟩

theorem index_sorted_by_namespace_witness :
    List.Sorted (fun a b : IndexEntry => localeCompare a.ns b.ns ≤ 0)
      (sortIndex localeCompare
        [⟨"z.html".data, "z.model".data, "0.1.0".data⟩,
         ⟨"a.html".data, "a.model".data, "0.1.0".data⟩])
    ∧ (sortIndex localeCompare
        [⟨"z.html".data, "z.model".data, "0.1.0".data⟩,
         ⟨"a.html".data, "a.model".data, "0.1.0".data⟩]).Perm
        [⟨"z.html".data, "z.model".data, "0.1.0".data⟩,
         ⟨"a.html".data, "a.model".data, "0.1.0".data⟩] :=
  ⟨(index_sorted_by_namespace localeCompare
      [⟨"z.html".data, "z.model".data, "0.1.0".data⟩,
       ⟨"a.html".data, "a.model".data, "0.1.0".data⟩]
      localeCompare_total localeCompare_trans).1,
   (index_sorted_by_namespace localeCompare
      [⟨"z.html".data, "z.model".data, "0.1.0".data⟩,
       ⟨"a.html".data, "a.model".data, "0.1.0".data⟩]
      localeCompare_total localeCompare_trans).2.1⟩

/-- Claim C10: when no positional filter argument is supplied on the command
line, the per-file filter test accepts every path (String.match against an
undefined pattern builds the empty regular expression, which matches every
string), so the loop processes every discovered source file and none is
skipped by the filter step. -/
theorem no_filter_selects_all (files : List Str) :
    selectFiles none files = files := by
  simp [selectFiles, matchesFilter]
